import Mathlib

/-!
Verification of the chunked-upload orchestrator in `src/app/page.tsx`.

The TypeScript component is embedded shallowly:
* `File`/`Blob` values are represented by their byte length (`Nat`) or, for a
  single chunk body, by an opaque `String`; a chunk produced by
  `file.slice(start, end)` is represented by its byte range `(start, end)`.
* `fetch` and the backend are oracles passed in as explicit parameters; a
  fetch that rejects (network error) or resolves is a `FetchOutcome`.
* React state (`status`, `error`, `videoUid`, the `cancelledRef` flag) is
  threaded explicitly.  The mutable cancellation flag shared between
  `handleUpload`/`pollStatus` and `handleCancel` is modelled as the sequence
  of values it has at the successive points where the code reads
  `cancelledRef.current`: a function `cancelAt : Nat → Bool` where the k-th
  read of the flag returns `cancelAt k`.
-/

deriving instance DecidableEq for Except

namespace ChunkUpload

/-- `const CHUNK_SIZE = 5 * 1024 * 1024` from `page.tsx`. -/
def CHUNK_SIZE : Nat := 5 * 1024 * 1024

/-- `const MAX_RETRIES = 2` from `page.tsx`. -/
def MAX_RETRIES : Nat := 2

/-- `interface PresignedPutPart { part_number: number; url: string }`. -/
structure PresignedPutPart where
  part_number : Nat
  url : String
deriving Repr, DecidableEq, Inhabited

/-- `interface StartUploadResponse { parts: PresignedPutPart[]; video: string }`. -/
structure StartUploadResponse where
  parts : List PresignedPutPart
  video : String
deriving Repr, DecidableEq, Inhabited

/-- `interface UploadStatus { status: string; video: string }`. -/
structure UploadStatus where
  status : String
  video : String
deriving Repr, DecidableEq, Inhabited

/-- `interface CompletePart { ETag: string; PartNumber: number }`. -/
structure CompletePart where
  ETag : String
  PartNumber : Nat
deriving Repr, DecidableEq, Inhabited

/-- The loop body of `chunkFile`: `while (start < file.size) { end = min(start
+ CHUNK_SIZE, size); chunks.push(file.slice(start, end)); start = end }`,
generalised over the chunk-size constant `C`.  A slice is represented by its
byte range.  (For `C = 0` the JS loop would never terminate; that branch is
unreachable for the actual constant `CHUNK_SIZE`.) -/
def chunkFileGo (C size start : Nat) : List (Nat × Nat) :=
  if _h : start < size then
    if _hC : 0 < C then
      (start, min (start + C) size) :: chunkFileGo C size (min (start + C) size)
    else []
  else []
termination_by size - start
decreasing_by omega

/-- `chunkFile` from `page.tsx`, at the source's chunk size `CHUNK_SIZE`. -/
def chunkFile (size : Nat) : List (Nat × Nat) :=
  chunkFileGo CHUNK_SIZE size 0

theorem chunkFileGo_of_lt {C size start : Nat} (h : start < size) (hC : 0 < C) :
    chunkFileGo C size start =
      (start, min (start + C) size) :: chunkFileGo C size (min (start + C) size) := by
  rw [chunkFileGo]
  simp [h, hC]

theorem chunkFileGo_of_ge {C size start : Nat} (h : size ≤ start) :
    chunkFileGo C size start = [] := by
  rw [chunkFileGo]
  simp [Nat.not_lt.mpr h]

/-- Closed form of the chunking loop: starting from `start`, it emits
`⌈(size - start) / C⌉` ranges, the `j`-th being
`[start + j*C, min (start + (j+1)*C) size)`. -/
theorem chunkFileGo_eq_map (C size : Nat) (hC : 0 < C) :
    ∀ n start, size - start ≤ n →
      chunkFileGo C size start =
        (List.range ((size - start + C - 1) / C)).map
          (fun j => (start + j * C, min (start + (j + 1) * C) size)) := by
  intro n
  induction n with
  | zero =>
    intro start h
    have hge : size ≤ start := by omega
    rw [chunkFileGo_of_ge hge]
    have h0 : size - start = 0 := by omega
    have : (size - start + C - 1) / C = 0 := by
      rw [h0]
      exact Nat.div_eq_of_lt (by omega)
    rw [this]
    simp
  | succ n ih =>
    intro start h
    by_cases hs : start < size
    · rw [chunkFileGo_of_lt hs hC]
      by_cases hle : start + C ≤ size
      · -- a full chunk fits; the next start is `start + C`
        have hmin : min (start + C) size = start + C := by omega
        rw [hmin]
        rw [ih (start + C) (by omega)]
        have hcount : (size - start + C - 1) / C = (size - (start + C) + C - 1) / C + 1 := by
          have he : size - start + C - 1 = (size - (start + C) + C - 1) + C := by omega
          rw [he, Nat.add_div_right _ hC]
        rw [hcount, List.range_succ_eq_map]
        simp only [List.map_cons, List.map_map]
        refine congrArg₂ List.cons ?_ ?_
        · simp [hmin]
        · apply List.map_congr_left
          intro j _
          simp only [Function.comp_apply, Nat.succ_eq_add_one]
          have e1 : start + C + j * C = start + (j + 1) * C := by ring
          have e2 : start + C + (j + 1) * C = start + (j + 1 + 1) * C := by ring
          rw [e1, e2]
      · -- last, short chunk: the next start is `size` and the loop stops
        have hmin : min (start + C) size = size := by omega
        rw [hmin, chunkFileGo_of_ge (Nat.le_refl size)]
        have hcount : (size - start + C - 1) / C = 1 := by
          apply Nat.div_eq_of_lt_le
          · omega
          · omega
        rw [hcount]
        simp [show List.range 1 = [0] from rfl, hmin]
    · rw [chunkFileGo_of_ge (by omega)]
      have h0 : size - start = 0 := by omega
      have hz : (size - start + C - 1) / C = 0 := by
        rw [h0]
        exact Nat.div_eq_of_lt (by omega)
      simp [hz]

/-- Closed form of the whole chunker run, from byte offset `0`. -/
theorem chunkFileGo_closed (C size : Nat) (hC : 0 < C) :
    chunkFileGo C size 0 =
      (List.range ((size + C - 1) / C)).map
        (fun j => (j * C, min ((j + 1) * C) size)) := by
  have h := chunkFileGo_eq_map C size hC size 0 (by omega)
  simpa using h

/-- An index below the ceiling-division chunk count starts strictly inside
the source. -/
theorem chunk_start_lt {C size i : Nat} (hC : 0 < C) (hi : i < (size + C - 1) / C) :
    i * C < size := by
  have h1 : (i + 1) * C ≤ ((size + C - 1) / C) * C := Nat.mul_le_mul_right C hi
  have h2 : ((size + C - 1) / C) * C ≤ size + C - 1 := Nat.div_mul_le_self _ _
  have h3 : (i + 1) * C = i * C + C := by ring
  have hsz : 0 < size := by
    by_contra hz
    have hsz0 : size = 0 := by omega
    subst hsz0
    have hd : (C - 1) / C = 0 := Nat.div_eq_of_lt (by omega)
    simp only [Nat.zero_add] at hi
    omega
  omega

/-- C2: for every source size and chunk size `C ≥ 1` the chunker produces
exactly `⌈size / C⌉ = (size + C - 1) / C` chunks; chunk `i` (0-based) spans
the byte range `[i*C, min ((i+1)*C) size)`; every byte of `[0, size)` is
covered by a chunk; the ranges are pairwise non-overlapping (the end of an
earlier chunk never exceeds the start of a later one); and a source of size
`0` yields the empty sequence. -/
theorem chunkFile_spec (size C : Nat) (hC : 1 ≤ C) :
    (chunkFileGo C size 0).length = (size + C - 1) / C ∧
    (∀ i, i < (size + C - 1) / C →
      (chunkFileGo C size 0)[i]? = some (i * C, min ((i + 1) * C) size)) ∧
    (∀ b, b < size → ∃ i, i < (size + C - 1) / C ∧
      i * C ≤ b ∧ b < min ((i + 1) * C) size) ∧
    (∀ i j, i < j → min ((i + 1) * C) size ≤ j * C) ∧
    chunkFileGo C 0 0 = [] := by
  have hC0 : 0 < C := hC
  refine ⟨?_, ?_, ?_, ?_, ?_⟩
  · rw [chunkFileGo_closed C size hC0]
    simp
  · intro i hi
    rw [chunkFileGo_closed C size hC0]
    rw [List.getElem?_map, List.getElem?_range hi]
    rfl
  · intro b hb
    refine ⟨b / C, ?_, ?_, ?_⟩
    · have h1 : b + C ≤ size + C - 1 := by omega
      have h2 : (b + C) / C ≤ (size + C - 1) / C := Nat.div_le_div_right h1
      have h3 : (b + C) / C = b / C + 1 := Nat.add_div_right b hC0
      omega
    · exact Nat.div_mul_le_self b C
    · have h1 : b < C * (b / C + 1) := Nat.lt_mul_div_succ b hC0
      have h2 : C * (b / C + 1) = (b / C + 1) * C := by ring
      omega
  · intro i j hij
    have h1 : (i + 1) * C ≤ j * C := Nat.mul_le_mul_right C (by omega)
    omega
  · exact chunkFileGo_of_ge (Nat.le_refl 0)

/-- Witness for `chunkFile_spec`: a 7-byte source with chunk size 3 produces
`⌈7/3⌉ = 3` chunks, the second spanning `[3, 6)`. -/
theorem chunkFile_spec_witness :
    1 ≤ 3 ∧ (chunkFileGo 3 7 0).length = (7 + 3 - 1) / 3 ∧
      (chunkFileGo 3 7 0)[1]? = some (1 * 3, min ((1 + 1) * 3) 7) :=
  ⟨by decide, (chunkFile_spec 7 3 (by decide)).1,
    (chunkFile_spec 7 3 (by decide)).2.1 1 (by decide)⟩

/-! ## Part Uploader (`uploadChunkToS3`, lines 53–120) -/

/-- Outcome of one `fetch` call: the promise either rejects (network error)
or resolves with a response. -/
inductive FetchOutcome (α : Type) where
  | networkError (msg : String)
  | response (r : α)
deriving Repr, DecidableEq

/-- The parts of a PUT response that `uploadChunkToS3` reads: `response.ok`,
`response.status`, `response.statusText`, the body text, and the value of
the ETag header.  `Headers.get` is case-insensitive, so the three lookups
`ETag` / `etag` / `Etag` in the source all return this one value (`none`
models a `null` return). -/
structure PutResponse where
  ok : Bool
  status : Nat
  statusText : String
  body : String
  etagHeader : Option String
deriving Repr, DecidableEq, Inhabited

/-- The two quote characters matched by the character class in the regex
`/^["']|["']$/g` of line 100. -/
def isQuoteChar (c : Char) : Bool := c = '"' || c = '\''

/-- Drop one leading quote character, if present. -/
def stripLeadingQuote (l : List Char) : List Char :=
  match l with
  | [] => []
  | c :: rest => if isQuoteChar c then rest else c :: rest

/-- `etag.replace(/^["']|["']$/g, '')` (line 100): remove at most one quote
character from the front and at most one from the back (a single quote
character is consumed by the first alternative only). -/
def stripOuterQuotes (l : List Char) : List Char :=
  (stripLeadingQuote (stripLeadingQuote l).reverse).reverse

/-- JS `String.prototype.trim`: drop whitespace from both ends. -/
def trimChars (l : List Char) : List Char :=
  ((l.dropWhile Char.isWhitespace).reverse.dropWhile Char.isWhitespace).reverse

/-- `etag.replace(/^["']|["']$/g, '').trim()` (line 100). -/
def normalizeEtag (s : String) : String := ⟨trimChars (stripOuterQuotes s.data)⟩

/-- The error thrown on a non-success PUT status (line 86).  (The source
interpolates `statusText` and the body text; the model renders the same
fields.) -/
def httpFailureMsg (partNumber : Nat) (r : PutResponse) : String :=
  "Failed to upload chunk " ++ toString partNumber ++ ": " ++ toString r.status
    ++ " " ++ r.statusText ++ (if r.body ≠ "" then " - " ++ r.body else "")

/-- The error thrown when no non-empty ETag can be extracted from a success
response (line 108).  (The source also appends a JSON dump of the response
headers; the model carries only the ETag header, so the dump is omitted.) -/
def missingEtagMsg (partNumber : Nat) (r : PutResponse) : String :=
  "Failed to extract ETag from chunk " ++ toString partNumber
    ++ " response. Status: " ++ toString r.status

/-- One attempt of `uploadChunkToS3` (the `try` body, lines 58–112): PUT the
chunk; a rejected fetch propagates its error; `!response.ok` throws
`httpFailureMsg`; otherwise the ETag header (defaulting to `''` when
absent) is quote-stripped and trimmed, and an empty result throws
`missingEtagMsg`. -/
def attemptUpload (partNumber : Nat) (f : FetchOutcome PutResponse) :
    Except String String :=
  match f with
  | .networkError msg => .error msg
  | .response r =>
    if r.ok = false then .error (httpFailureMsg partNumber r)
    else
      let etag := normalizeEtag (r.etagHeader.getD "")
      if etag = "" then .error (missingEtagMsg partNumber r)
      else .ok etag

theorem attemptUpload_response (pn : Nat) (r : PutResponse) :
    attemptUpload pn (.response r) =
      if r.ok = false then .error (httpFailureMsg pn r)
      else if normalizeEtag (r.etagHeader.getD "") = "" then
        .error (missingEtagMsg pn r)
      else .ok (normalizeEtag (r.etagHeader.getD "")) := rfl

/-- Result of `uploadChunkToS3`: the overall outcome, the number of
attempts performed, and the `(url, body)` of every PUT request issued, in
order. -/
structure UploadChunkResult where
  result : Except String String
  attempts : Nat
  requests : List (String × String)
deriving Repr

/-- `uploadChunkToS3(chunk, part, retryCount)` (lines 53–120): run one
attempt; on a thrown failure, if `retryCount < MAX_RETRIES` (generalised to
a parameter `maxRetries`) recurse with the same chunk and part at
`retryCount + 1`, else rethrow the last error.  `fetchAt n url body` is the
outcome of the fetch performed by the attempt at `retryCount = n`. -/
def uploadChunkToS3 (chunk : String) (part : PresignedPutPart)
    (fetchAt : Nat → String → String → FetchOutcome PutResponse)
    (maxRetries : Nat) (retryCount : Nat) : UploadChunkResult :=
  match attemptUpload part.part_number (fetchAt retryCount part.url chunk) with
  | .ok etag => ⟨.ok etag, 1, [(part.url, chunk)]⟩
  | .error e =>
    if _h : retryCount < maxRetries then
      let r := uploadChunkToS3 chunk part fetchAt maxRetries (retryCount + 1)
      ⟨r.result, r.attempts + 1, (part.url, chunk) :: r.requests⟩
    else ⟨.error e, 1, [(part.url, chunk)]⟩
termination_by maxRetries - retryCount
decreasing_by omega

/-- `msg` references the number `n`: the decimal rendering of `n` occurs in
`msg`. -/
def mentionsNat (msg : String) (n : Nat) : Prop :=
  ∃ pre post, msg = pre ++ toString n ++ post

theorem mentionsNat_mem {msg : String} {n : Nat} (h : mentionsNat msg n)
    {c : Char} (hc : c ∈ (toString n).data) : c ∈ msg.data := by
  obtain ⟨pre, post, rfl⟩ := h
  simp only [String.data_append, List.mem_append]
  exact Or.inl (Or.inr hc)

/-- Both response-shaped failures of an attempt carry the part number in
their message. -/
theorem attemptUpload_error_mentions (pn : Nat) (r : PutResponse) (e : String)
    (h : attemptUpload pn (.response r) = .error e) : mentionsNat e pn := by
  unfold attemptUpload at h
  by_cases hok : r.ok = false
  · simp only [hok, if_true] at h
    refine ⟨"Failed to upload chunk ", ?_, ?_⟩
    · exact ": " ++ toString r.status ++ " " ++ r.statusText
        ++ (if r.body ≠ "" then " - " ++ r.body else "")
    · cases h
      simp [httpFailureMsg, String.append_assoc]
  · simp only [hok, if_false] at h
    by_cases he : normalizeEtag (r.etagHeader.getD "") = ""
    · simp only [he, if_true] at h
      refine ⟨"Failed to extract ETag from chunk ",
        " response. Status: " ++ toString r.status, ?_⟩
      cases h
      simp [missingEtagMsg, String.append_assoc]
    · simp only [he, if_false] at h
      cases h

theorem uploadChunkToS3_of_ok {chunk : String} {part : PresignedPutPart}
    {fetchAt : Nat → String → String → FetchOutcome PutResponse}
    {maxRetries retryCount : Nat} {e : String}
    (h : attemptUpload part.part_number (fetchAt retryCount part.url chunk) = .ok e) :
    uploadChunkToS3 chunk part fetchAt maxRetries retryCount =
      ⟨.ok e, 1, [(part.url, chunk)]⟩ := by
  rw [uploadChunkToS3, h]

theorem uploadChunkToS3_of_error_retry {chunk : String} {part : PresignedPutPart}
    {fetchAt : Nat → String → String → FetchOutcome PutResponse}
    {maxRetries retryCount : Nat} {e : String}
    (h : attemptUpload part.part_number (fetchAt retryCount part.url chunk) = .error e)
    (hlt : retryCount < maxRetries) :
    uploadChunkToS3 chunk part fetchAt maxRetries retryCount =
      ⟨(uploadChunkToS3 chunk part fetchAt maxRetries (retryCount + 1)).result,
       (uploadChunkToS3 chunk part fetchAt maxRetries (retryCount + 1)).attempts + 1,
       (part.url, chunk) :: (uploadChunkToS3 chunk part fetchAt maxRetries (retryCount + 1)).requests⟩ := by
  rw [uploadChunkToS3, h]
  simp [hlt]

theorem uploadChunkToS3_of_error_last {chunk : String} {part : PresignedPutPart}
    {fetchAt : Nat → String → String → FetchOutcome PutResponse}
    {maxRetries retryCount : Nat} {e : String}
    (h : attemptUpload part.part_number (fetchAt retryCount part.url chunk) = .error e)
    (hge : maxRetries ≤ retryCount) :
    uploadChunkToS3 chunk part fetchAt maxRetries retryCount =
      ⟨.error e, 1, [(part.url, chunk)]⟩ := by
  rw [uploadChunkToS3, h]
  simp [Nat.not_lt.mpr hge]

/-- When attempts `start, …, N-1` fail and attempt `N ≤ maxRetries`
succeeds, the call starting at `retryCount = start` returns the success and
performs exactly `N - start + 1` attempts, all with the same url and
bytes. -/
theorem uploadChunkToS3_succeeds_after {chunk : String} {part : PresignedPutPart}
    {fetchAt : Nat → String → String → FetchOutcome PutResponse}
    {maxRetries N : Nat} {e : String}
    (hN : N ≤ maxRetries)
    (hfail : ∀ i, i < N →
      ∃ err, attemptUpload part.part_number (fetchAt i part.url chunk) = .error err)
    (hok : attemptUpload part.part_number (fetchAt N part.url chunk) = .ok e) :
    ∀ d start, start ≤ N → N - start ≤ d →
      uploadChunkToS3 chunk part fetchAt maxRetries start =
        ⟨.ok e, N - start + 1, List.replicate (N - start + 1) (part.url, chunk)⟩ := by
  intro d
  induction d with
  | zero =>
    intro start hs hd
    have hsN : start = N := by omega
    subst hsN
    rw [uploadChunkToS3_of_ok hok]
    simp
  | succ d ih =>
    intro start hs hd
    by_cases hsN : start = N
    · subst hsN
      rw [uploadChunkToS3_of_ok hok]
      simp
    · have hlt : start < N := by omega
      obtain ⟨err, herr⟩ := hfail start hlt
      rw [uploadChunkToS3_of_error_retry herr (by omega)]
      rw [ih (start + 1) (by omega) (by omega)]
      have harith : N - start + 1 = (N - (start + 1) + 1) + 1 := by omega
      simp [harith, List.replicate_succ]

/-- When every attempt from `start` through `maxRetries` fails, the call
starting at `retryCount = start` performs exactly `maxRetries - start + 1`
attempts against the same url with the same bytes and propagates the error
of the last attempt. -/
theorem uploadChunkToS3_exhausts {chunk : String} {part : PresignedPutPart}
    {fetchAt : Nat → String → String → FetchOutcome PutResponse}
    {maxRetries : Nat} {errOf : Nat → String}
    (hfail : ∀ i, i ≤ maxRetries →
      attemptUpload part.part_number (fetchAt i part.url chunk) = .error (errOf i)) :
    ∀ d start, start ≤ maxRetries → maxRetries - start ≤ d →
      uploadChunkToS3 chunk part fetchAt maxRetries start =
        ⟨.error (errOf maxRetries), maxRetries - start + 1,
         List.replicate (maxRetries - start + 1) (part.url, chunk)⟩ := by
  intro d
  induction d with
  | zero =>
    intro start hs hd
    have hsN : start = maxRetries := by omega
    subst hsN
    rw [uploadChunkToS3_of_error_last (hfail start (Nat.le_refl _)) (Nat.le_refl _)]
    simp
  | succ d ih =>
    intro start hs hd
    by_cases hsN : start = maxRetries
    · subst hsN
      rw [uploadChunkToS3_of_error_last (hfail start (Nat.le_refl _)) (Nat.le_refl _)]
      simp
    · have hlt : start < maxRetries := by omega
      rw [uploadChunkToS3_of_error_retry (hfail start (by omega)) hlt]
      rw [ih (start + 1) (by omega) (by omega)]
      have harith : maxRetries - start + 1 = (maxRetries - (start + 1) + 1) + 1 := by omega
      simp [harith, List.replicate_succ]

end ChunkUpload

namespace ChunkUpload

/-- C6: on a success response the integrity token is the ETag header value
with one layer of surrounding quote characters stripped and whitespace
trimmed — the header value `"abc123"` (quotes included) yields `abc123` —
and an empty or absent header value makes the attempt fail with
`missingEtagMsg` even though the HTTP status was success. -/
theorem etag_extraction_spec :
    normalizeEtag "\"abc123\"" = "abc123" ∧
    (∀ pn : Nat, ∀ r : PutResponse, ∀ v : String,
      r.ok = true → r.etagHeader = some v → normalizeEtag v ≠ "" →
      attemptUpload pn (.response r) = .ok (normalizeEtag v)) ∧
    (∀ pn : Nat, ∀ r : PutResponse,
      r.ok = true → (r.etagHeader = none ∨ r.etagHeader = some "") →
      attemptUpload pn (.response r) = .error (missingEtagMsg pn r)) := by
  refine ⟨by decide, ?_, ?_⟩
  · intro pn r v hok hv hne
    rw [attemptUpload_response, hv]
    simp [hok, hne]
  · intro pn r hok hh
    have hz : normalizeEtag "" = "" := rfl
    rcases hh with h | h <;> rw [attemptUpload_response, h] <;> simp [hok, hz]

/-- Witness for `etag_extraction_spec`: a success response whose ETag
header is the 8-character value `"abc123"` (with quotes) yields token
`abc123`, and a success response without an ETag header fails. -/
theorem etag_extraction_spec_witness :
    attemptUpload 3 (.response ⟨true, 200, "OK", "", some "\"abc123\""⟩) = .ok "abc123" ∧
    attemptUpload 3 (.response ⟨true, 200, "OK", "", none⟩) =
      .error (missingEtagMsg 3 ⟨true, 200, "OK", "", none⟩) := by
  constructor
  · have h := etag_extraction_spec.2.1 3 ⟨true, 200, "OK", "", some "\"abc123\""⟩
      "\"abc123\"" rfl rfl (by decide)
    rw [h, etag_extraction_spec.1]
  · exact etag_extraction_spec.2.2 3 ⟨true, 200, "OK", "", none⟩ rfl (Or.inl rfl)

/-- C3 (amended): with attempt outcomes given by `fetchAt`, (a) if the
first `N < maxRetries` attempts fail and attempt `N` succeeds, the call
succeeds after exactly `N + 1` attempts; (b) if every attempt fails,
exactly `maxRetries + 1` attempts occur, all against the same url with the
same bytes, and the failure of the last attempt is propagated; (c) when the
last attempt's failure came from a received response (non-success status or
missing token) — though not when it was a network-level rejection — the
propagated error references the part number. -/
theorem uploadChunk_retry_policy (chunk : String) (part : PresignedPutPart)
    (fetchAt : Nat → String → String → FetchOutcome PutResponse)
    (maxRetries : Nat) :
    (∀ N : Nat, ∀ e : String, N < maxRetries →
      (∀ i, i < N →
        ∃ err, attemptUpload part.part_number (fetchAt i part.url chunk) = .error err) →
      attemptUpload part.part_number (fetchAt N part.url chunk) = .ok e →
      uploadChunkToS3 chunk part fetchAt maxRetries 0 =
        ⟨.ok e, N + 1, List.replicate (N + 1) (part.url, chunk)⟩) ∧
    (∀ errOf : Nat → String,
      (∀ i, i ≤ maxRetries →
        attemptUpload part.part_number (fetchAt i part.url chunk) = .error (errOf i)) →
      uploadChunkToS3 chunk part fetchAt maxRetries 0 =
        ⟨.error (errOf maxRetries), maxRetries + 1,
         List.replicate (maxRetries + 1) (part.url, chunk)⟩) ∧
    (∀ r : PutResponse, ∀ e : String,
      attemptUpload part.part_number (.response r) = .error e →
      mentionsNat e part.part_number) := by
  refine ⟨?_, ?_, ?_⟩
  · intro N e hN hfail hok
    have h := uploadChunkToS3_succeeds_after (Nat.le_of_lt hN) hfail hok N 0
      (by omega) (by omega)
    simpa using h
  · intro errOf hfail
    have h := uploadChunkToS3_exhausts hfail maxRetries 0 (by omega) (by omega)
    simpa using h
  · intro r e he
    exact attemptUpload_error_mentions _ r e he

/-- A fetch oracle whose every attempt fails with a 500 response except the
second (`retryCount = 1`), which succeeds with a quoted ETag. -/
def demoFetch : Nat → String → String → FetchOutcome PutResponse :=
  fun n _ _ =>
    if n = 0 then .response ⟨false, 500, "Internal Server Error", "", none⟩
    else .response ⟨true, 200, "OK", "", some "\"t7\""⟩

/-- Witness for `uploadChunk_retry_policy`: with `maxRetries = 2`, a first
attempt failing on HTTP 500 and a second succeeding, the call returns the
token after exactly 2 attempts, both against the same url and bytes. -/
theorem uploadChunk_retry_policy_witness :
    uploadChunkToS3 "payload" ⟨7, "https://store/part7"⟩ demoFetch 2 0 =
      ⟨.ok "t7", 2, List.replicate 2 ("https://store/part7", "payload")⟩ :=
  (uploadChunk_retry_policy "payload" ⟨7, "https://store/part7"⟩ demoFetch 2).1 1 "t7"
    (by decide)
    (fun i hi => ⟨httpFailureMsg 7 ⟨false, 500, "Internal Server Error", "", none⟩, by
      have h0 : i = 0 := by omega
      subst h0
      rfl⟩)
    (by decide)

/-- A fetch oracle that always rejects at the network level; its message
contains no digits. -/
def alwaysNetworkError : Nat → String → String → FetchOutcome PutResponse :=
  fun _ _ _ => .networkError "network failure"

/-- C3 counterexample: with `maxRetries = 2` and a fetch that always
rejects with the network error `network failure`, all `maxRetries + 1 = 3`
attempts fail against the same destination with the same bytes — but the
propagated error is the network message verbatim, which does not reference
part number `7`. -/
theorem uploadChunk_retry_mentions_counterexample :
    uploadChunkToS3 "payload" ⟨7, "https://store/part7"⟩ alwaysNetworkError 2 0 =
      ⟨.error "network failure", 3, List.replicate 3 ("https://store/part7", "payload")⟩ ∧
    ¬ mentionsNat "network failure" 7 := by
  constructor
  · exact @uploadChunkToS3_exhausts "payload" ⟨7, "https://store/part7"⟩
      alwaysNetworkError 2 (fun _ => "network failure")
      (fun i _ => rfl) 2 0 (by omega) (by omega)
  · intro h
    have h7 := mentionsNat_mem h (c := '7') (by decide)
    revert h7
    decide

end ChunkUpload

namespace ChunkUpload

/-! ## Upload Coordinator (`handleUpload`, lines 228–323) -/

/-- The values `handleUpload`/`handleCancel`/`pollStatus` pass to
`setStatus`, one constructor per call site, with the interpolated values as
payloads. -/
inductive Status where
  | empty
  | preparing
  | chunking (totalParts : Nat)
  | receivedUrls (n : Nat)
  | uploadingChunk (i totalParts : Nat)
  | cancelledFinishing
  | uploadCancelled
  | completing
  | waitingProcessing
  | polled (s : String)
  | uploadCompleted
  | uploadFailed
  | cancelling
deriving Repr, DecidableEq

/-- `completeParts.sort((a, b) => a.PartNumber - b.PartNumber)` (line
293). -/
def sortParts (l : List CompletePart) : List CompletePart :=
  l.mergeSort (fun a b => decide (a.PartNumber ≤ b.PartNumber))

/-- State of the chunk loop (lines 265–284) when it exits. -/
structure LoopResult where
  k : Nat
  acc : List CompletePart
  dispatched : List (Nat × PresignedPutPart)
  err : Option String
  cancelledBreak : Bool
  status : Status
deriving Repr

/-- The `for` loop of `handleUpload` (lines 265–284): before each chunk
read the cancellation flag (read index `k`, breaking with status
`cancelledFinishing` if set), then set status `Uploading chunk i+1/total`,
upload chunk `i` to `parts[i]` and record the returned ETag under
`parts[i].part_number`.  `uploadOutcome i p` is the overall result of
`uploadChunkToS3` for chunk `i` against destination `p`; an error is the
exception that aborts the loop. -/
def uploadLoop (parts : List PresignedPutPart) (totalParts : Nat)
    (uploadOutcome : Nat → PresignedPutPart → Except String String)
    (cancelAt : Nat → Bool) :
    List Nat → Nat → List CompletePart → List (Nat × PresignedPutPart) →
      Status → LoopResult
  | [], k, acc, disp, st => ⟨k, acc, disp, none, false, st⟩
  | i :: rest, k, acc, disp, _st =>
    if cancelAt k then ⟨k + 1, acc, disp, none, true, .cancelledFinishing⟩
    else
      let p := parts.getD i default
      match uploadOutcome i p with
      | .error e =>
        ⟨k + 1, acc, disp ++ [(i, p)], some e, false,
          .uploadingChunk (i + 1) totalParts⟩
      | .ok etag =>
        uploadLoop parts totalParts uploadOutcome cancelAt rest (k + 1)
          (acc ++ [⟨etag, p.part_number⟩]) (disp ++ [(i, p)])
          (.uploadingChunk (i + 1) totalParts)

/-- The backend/network environment one `handleUpload` run interacts with:
the outcome of `startUpload`, the per-chunk overall outcome of
`uploadChunkToS3`, the outcome of `completeUpload`, and the behaviour of
the awaited `pollStatus` promise (its outcome, how many times it read the
cancellation flag, and the last `Status: …` message it set, if any). -/
structure SessionEnv where
  startResult : Except String StartUploadResponse
  uploadOutcome : Nat → PresignedPutPart → Except String String
  completeResult : Except String Unit
  pollResult : Except String Unit
  pollReads : Nat
  pollLastStatus : Option String

/-- Observable outcome of one `handleUpload` run. -/
structure SessionResult where
  startCalled : Option (String × Nat)
  dispatched : List (Nat × PresignedPutPart)
  completeCall : Option (String × List CompletePart)
  pollCalled : Bool
  videoUid : Option String
  status : Status
  error : String
deriving Repr

/-- The status showing after `pollStatus` returns: the last `Status: …` it
set, else the base status from before the poll. -/
def statusAfterPoll (base : Status) (o : Option String) : Status :=
  match o with
  | none => base
  | some s => .polled s

/-- `handleUpload` (lines 228–323), with the shared mutable cancellation
flag modelled by `cancelAt : Nat → Bool` giving the value of the `k`-th
read of `cancelledRef.current` in this run (the ref is reset to `false` at
line 239 before any read; reads in program order: line 256 is read 0, the
loop reads follow from index 1, then the post-loop check of line 287 — or
the `catch` of line 313 — then any reads inside `pollStatus`, then the
check of line 310 or the `catch`).  A thrown error reaches the `catch`,
which surfaces it only when the flag reads `false`. -/
def handleUpload (fileSelected : Bool) (fileSize : Nat) (fileName : String)
    (env : SessionEnv) (cancelAt : Nat → Bool) : SessionResult :=
  if fileSelected = false then
    ⟨none, [], none, false, none, .empty, "Please select a file"⟩
  else
    let totalParts := (chunkFile fileSize).length
    match env.startResult with
    | .error e =>
      if cancelAt 0 then
        ⟨some (fileName, totalParts), [], none, false, none,
          .chunking totalParts, ""⟩
      else
        ⟨some (fileName, totalParts), [], none, false, none, .uploadFailed, e⟩
    | .ok resp =>
      if cancelAt 0 then
        ⟨some (fileName, totalParts), [], none, false, some resp.video,
          .receivedUrls resp.parts.length, ""⟩
      else
        let lo := uploadLoop resp.parts totalParts env.uploadOutcome cancelAt
          (List.range totalParts) 1 [] [] (.receivedUrls resp.parts.length)
        match lo.err with
        | some e =>
          if cancelAt lo.k then
            ⟨some (fileName, totalParts), lo.dispatched, none, false,
              some resp.video, lo.status, ""⟩
          else
            ⟨some (fileName, totalParts), lo.dispatched, none, false,
              some resp.video, .uploadFailed, e⟩
        | none =>
          if cancelAt lo.k then
            ⟨some (fileName, totalParts), lo.dispatched, none, false,
              some resp.video, .uploadCancelled, ""⟩
          else
            let sorted := sortParts lo.acc
            match env.completeResult with
            | .error e =>
              if cancelAt (lo.k + 1) then
                ⟨some (fileName, totalParts), lo.dispatched,
                  some (resp.video, sorted), false, some resp.video,
                  .completing, ""⟩
              else
                ⟨some (fileName, totalParts), lo.dispatched,
                  some (resp.video, sorted), false, some resp.video,
                  .uploadFailed, e⟩
            | .ok _ =>
              match env.pollResult with
              | .error e =>
                if cancelAt (lo.k + 1 + env.pollReads) then
                  ⟨some (fileName, totalParts), lo.dispatched,
                    some (resp.video, sorted), true, some resp.video,
                    statusAfterPoll .waitingProcessing env.pollLastStatus, ""⟩
                else
                  ⟨some (fileName, totalParts), lo.dispatched,
                    some (resp.video, sorted), true, some resp.video,
                    .uploadFailed, e⟩
              | .ok _ =>
                if cancelAt (lo.k + 1 + env.pollReads) then
                  ⟨some (fileName, totalParts), lo.dispatched,
                    some (resp.video, sorted), true, some resp.video,
                    statusAfterPoll .waitingProcessing env.pollLastStatus, ""⟩
                else
                  ⟨some (fileName, totalParts), lo.dispatched,
                    some (resp.video, sorted), true, some resp.video,
                    .uploadCompleted, ""⟩

/-! ## Cancellation (`handleCancel`, lines 325–336; `cancelUpload`,
lines 146–160) -/

/-- What one `handleCancel` invocation does. -/
structure CancelAction where
  flagSet : Bool
  statusSet : Option Status
  notified : Option String
deriving Repr, DecidableEq

/-- JS falsiness of the `videoUid` state: `null` or the empty string. -/
def uidFalsy (videoUid : Option String) : Bool :=
  match videoUid with
  | none => true
  | some s => s = ""

/-- `handleCancel` (lines 325–336): return without any effect unless a
truthy `videoUid` is assigned and an upload is in progress; otherwise set
the cancellation flag and status and fire `cancelUpload` without awaiting
it. -/
def handleCancel (videoUid : Option String) (uploading : Bool) : CancelAction :=
  if uidFalsy videoUid || !uploading then ⟨false, none, none⟩
  else ⟨true, some .cancelling, some (videoUid.getD "")⟩

/-- The parts of a response that `cancelUpload` reads. -/
structure SimpleResponse where
  ok : Bool
  statusText : String
  body : String
deriving Repr, DecidableEq, Inhabited

/-- The `try` body of `cancelUpload` (lines 147–155): a rejected fetch
propagates; a non-success response throws. -/
def cancelUploadAttempt (resp : FetchOutcome SimpleResponse) : Except String Unit :=
  match resp with
  | .networkError msg => .error msg
  | .response r =>
    if r.ok = false then
      .error ("Failed to cancel upload: " ++ r.statusText ++ " - " ++ r.body)
    else .ok ()

/-- `cancelUpload` (lines 146–160): any failure of the attempt is caught
and logged, never rethrown.  Returns `(surfaced error, logged error)`. -/
def cancelUpload (resp : FetchOutcome SimpleResponse) : Option String × Option String :=
  match cancelUploadAttempt resp with
  | .ok _ => (none, none)
  | .error e => (none, some e)

/-! ## Status Poller (`pollStatus`, lines 191–226) -/

inductive PollOutcome where
  | completed
  | cancelled
  | failed (e : String)
deriving Repr, DecidableEq

/-- Observable outcome of `pollStatus`: how the promise settled (`none` if
the modelled fuel ran out first), the number of status requests issued, and
the timed waits performed, in order. -/
structure PollResult where
  outcome : Option PollOutcome
  requests : Nat
  delays : List Nat
deriving Repr, DecidableEq

/-- The `poll` closure of `pollStatus` (lines 193–221), iterated: read the
cancellation flag (read index `k`; resolve as cancelled if set), issue
status request number `iter` (`statusAt iter` its outcome), resolve as
completed on status `"completed"`, re-read the flag after any other status
(resolving as cancelled if set), else wait 5000 ms and poll again.  A
failed request reaches the `catch`, which resolves as cancelled when the
flag is set and rejects with the error otherwise.  `fuel` bounds the
number of iterations modelled. -/
def pollStatusGo (statusAt : Nat → Except String UploadStatus)
    (cancelAt : Nat → Bool) : Nat → Nat → Nat → PollResult
  | _iter, _k, 0 => ⟨none, 0, []⟩
  | iter, k, fuel + 1 =>
    if cancelAt k then ⟨some .cancelled, 0, []⟩
    else
      match statusAt iter with
      | .error e =>
        if cancelAt (k + 1) then ⟨some .cancelled, 1, []⟩
        else ⟨some (.failed e), 1, []⟩
      | .ok st =>
        if st.status = "completed" then ⟨some .completed, 1, []⟩
        else if cancelAt (k + 1) then ⟨some .cancelled, 1, []⟩
        else
          let r := pollStatusGo statusAt cancelAt (iter + 1) (k + 2) fuel
          ⟨r.outcome, r.requests + 1, 5000 :: r.delays⟩

/-- `pollStatus` (lines 191–226): `setTimeout(poll, 3000)` — an initial
3000 ms delay — then the poll loop. -/
def pollStatus (statusAt : Nat → Except String UploadStatus)
    (cancelAt : Nat → Bool) (fuel : Nat) : PollResult :=
  let r := pollStatusGo statusAt cancelAt 0 0 fuel
  ⟨r.outcome, r.requests, 3000 :: r.delays⟩

end ChunkUpload

namespace ChunkUpload

/-- `cancelAfter s`: the monotone cancellation flag as seen by a run in
which `signal()` lands between the `s-1`-th and the `s`-th flag reads:
reads before index `s` return `false`, reads from `s` on return `true`. -/
def cancelAfter (s : Nat) : Nat → Bool := fun j => decide (s ≤ j)

theorem map_getD_range_self {α : Type} (d : α) :
    ∀ l : List α, (List.range' 0 l.length).map (fun i => l.getD i d) = l := by
  intro l
  induction l with
  | nil => rfl
  | cons x xs ih =>
    have hr : List.range' 0 (xs.length + 1) = 0 :: List.range' 1 xs.length := rfl
    rw [List.length_cons, hr, List.map_cons, List.getD_cons_zero]
    congr 1
    rw [List.range'_eq_map_range, List.map_map]
    have hc : ∀ i ∈ List.range xs.length,
        ((fun i => (x :: xs).getD i d) ∘ (fun i => 1 + i)) i = xs.getD i d := by
      intro i _
      simp only [Function.comp_apply, Nat.add_comm 1 i, List.getD_cons_succ]
    rw [List.map_congr_left hc, List.range_eq_range']
    exact ih

/-- The chunk loop over a window in which the flag stays unset and every
upload succeeds: each chunk is dispatched in order to `parts[i]` and
recorded under that destination's part number. -/
theorem uploadLoop_all_ok (parts : List PresignedPutPart) (total : Nat)
    (uploadOutcome : Nat → PresignedPutPart → Except String String)
    (cancelAt : Nat → Bool) (etagOf : Nat → String) :
    ∀ m a k acc disp st,
      (∀ i, a ≤ i → i < a + m → uploadOutcome i (parts.getD i default) = .ok (etagOf i)) →
      (∀ j, k ≤ j → j < k + m → cancelAt j = false) →
      uploadLoop parts total uploadOutcome cancelAt (List.range' a m) k acc disp st =
        ⟨k + m,
         acc ++ (List.range' a m).map
           (fun i => ⟨etagOf i, (parts.getD i default).part_number⟩),
         disp ++ (List.range' a m).map (fun i => (i, parts.getD i default)),
         none, false,
         if m = 0 then st else .uploadingChunk (a + m) total⟩ := by
  intro m
  induction m with
  | zero =>
    intro a k acc disp st _hok _hcf
    simp [uploadLoop]
  | succ m ih =>
    intro a k acc disp st hok hcf
    have hr : List.range' a (m + 1) = a :: List.range' (a + 1) m := rfl
    rw [hr]
    simp only [uploadLoop]
    rw [hcf k (Nat.le_refl k) (by omega)]
    simp only [Bool.false_eq_true, if_false]
    rw [hok a (Nat.le_refl a) (by omega)]
    dsimp only
    rw [ih (a + 1) (k + 1) _ _ _
      (fun i h1 h2 => hok i (by omega) (by omega))
      (fun j h1 h2 => hcf j (by omega) (by omega))]
    have hk : k + 1 + m = k + (m + 1) := by omega
    have hstat :
        (if m = 0 then Status.uploadingChunk (a + 1) total
          else Status.uploadingChunk (a + 1 + m) total) =
          Status.uploadingChunk (a + (m + 1)) total := by
      by_cases hm : m = 0
      · subst hm
        simp
      · rw [if_neg hm]
        have ha : a + 1 + m = a + (m + 1) := by omega
        rw [ha]
    rw [hk, hstat]
    simp [List.append_assoc]

/-- The chunk loop under `cancelAfter s` when the signal lands strictly
inside the loop's read window: the chunks whose pre-dispatch reads precede
`s` are uploaded and recorded, the next read observes the flag and breaks
with status `cancelledFinishing`, and nothing further is dispatched. -/
theorem uploadLoop_breaks (parts : List PresignedPutPart) (total : Nat)
    (uploadOutcome : Nat → PresignedPutPart → Except String String)
    (s : Nat) (etagOf : Nat → String) :
    ∀ m a k acc disp st,
      k ≤ s → s < k + m →
      (∀ i, a ≤ i → i < a + (s - k) → uploadOutcome i (parts.getD i default) = .ok (etagOf i)) →
      uploadLoop parts total uploadOutcome (cancelAfter s) (List.range' a m) k acc disp st =
        ⟨s + 1,
         acc ++ (List.range' a (s - k)).map
           (fun i => ⟨etagOf i, (parts.getD i default).part_number⟩),
         disp ++ (List.range' a (s - k)).map (fun i => (i, parts.getD i default)),
         none, true, .cancelledFinishing⟩ := by
  intro m
  induction m with
  | zero =>
    intro a k acc disp st hks hsk _hok
    omega
  | succ m ih =>
    intro a k acc disp st hks hsk hok
    have hr : List.range' a (m + 1) = a :: List.range' (a + 1) m := rfl
    rw [hr]
    simp only [uploadLoop]
    by_cases hkeq : k = s
    · subst hkeq
      have hflag : cancelAfter k k = true := by simp [cancelAfter]
      rw [hflag]
      simp
    · have hklt : k < s := by omega
      have hflag : cancelAfter s k = false := by simp [cancelAfter]; omega
      rw [hflag]
      simp only [Bool.false_eq_true, if_false]
      rw [hok a (Nat.le_refl a) (by omega)]
      dsimp only
      rw [ih (a + 1) (k + 1) _ _ _
        (by omega) (by omega)
        (fun i h1 h2 => hok i (by omega) (by omega))]
      have hsk1 : s - k = (s - (k + 1)) + 1 := by omega
      rw [hsk1]
      have hr2 : List.range' a ((s - (k + 1)) + 1) = a :: List.range' (a + 1) (s - (k + 1)) := rfl
      rw [hr2]
      simp [List.append_assoc]

end ChunkUpload

namespace ChunkUpload

/-- Sorting the accumulated parts by part number (`sortParts`): if the
multiset of part numbers is exactly `{1, …, n}`, the sorted list's part
numbers are exactly `[1, …, n]`. -/
theorem sortParts_partNumbers {l : List CompletePart} {n : Nat}
    (hperm : (l.map CompletePart.PartNumber).Perm (List.range' 1 n)) :
    (sortParts l).map CompletePart.PartNumber = List.range' 1 n := by
  have hp : (sortParts l).Perm l := List.mergeSort_perm l _
  have hmapp : ((sortParts l).map CompletePart.PartNumber).Perm (List.range' 1 n) :=
    (hp.map CompletePart.PartNumber).trans hperm
  have hsorted : (sortParts l).Pairwise
      (fun a b => decide (a.PartNumber ≤ b.PartNumber) = true) :=
    List.sorted_mergeSort
      (by
        intro a b c h1 h2
        simp only [decide_eq_true_eq] at h1 h2 ⊢
        omega)
      (by
        intro a b
        simp only [Bool.or_eq_true, decide_eq_true_eq]
        omega)
      l
  have hsorted2 : ((sortParts l).map CompletePart.PartNumber).Sorted (· ≤ ·) := by
    rw [List.Sorted, List.pairwise_map]
    exact hsorted.imp (by intro a b h; simpa using h)
  have hsorted3 : (List.range' 1 n).Sorted (· ≤ ·) :=
    (List.pairwise_lt_range' 1 n).imp (fun h => Nat.le_of_lt h)
  exact List.eq_of_perm_of_sorted hmapp hsorted2 hsorted3

/-- A fully successful, never-cancelled run of `handleUpload`: Start is
called with the chunk count, chunk `i` is dispatched to `parts[i]`
positionally, Complete receives the accumulated parts sorted by part
number, and the run finishes with status `uploadCompleted`. -/
theorem handleUpload_success_run (fileSize : Nat) (fileName : String)
    (env : SessionEnv) (resp : StartUploadResponse) (etagOf : Nat → String)
    (hstart : env.startResult = .ok resp)
    (hok : ∀ i, i < (chunkFile fileSize).length →
      env.uploadOutcome i (resp.parts.getD i default) = .ok (etagOf i))
    (hcomp : env.completeResult = .ok ())
    (hpoll : env.pollResult = .ok ()) :
    handleUpload true fileSize fileName env (fun _ => false) =
      ⟨some (fileName, (chunkFile fileSize).length),
       (List.range' 0 (chunkFile fileSize).length).map
         (fun i => (i, resp.parts.getD i default)),
       some (resp.video,
         sortParts ((List.range' 0 (chunkFile fileSize).length).map
           (fun i => ⟨etagOf i, (resp.parts.getD i default).part_number⟩))),
       true, some resp.video, .uploadCompleted, ""⟩ := by
  unfold handleUpload
  rw [hstart]
  simp only [Bool.true_eq_false, if_false, List.range_eq_range']
  rw [uploadLoop_all_ok resp.parts ((chunkFile fileSize).length) env.uploadOutcome
    (fun _ => false) etagOf ((chunkFile fileSize).length) 0 1 [] []
    (.receivedUrls resp.parts.length)
    (fun i h1 h2 => hok i (by omega)) (fun j _ _ => rfl)]
  rw [hcomp, hpoll]
  simp

end ChunkUpload

namespace ChunkUpload

/-- C1: in a successful, never-cancelled run whose Start response carries
part numbers forming exactly the set `{1, …, totalParts}` (the backend
contract of §6), the part list passed to the Complete call has part numbers
`[1, …, totalParts]` in order — sorted strictly ascending, no duplicates,
no gaps — and is a permutation of the per-chunk records, exactly one entry
per chunk produced by the chunker. -/
theorem complete_call_ordered (fileSize : Nat) (fileName : String)
    (env : SessionEnv) (resp : StartUploadResponse) (etagOf : Nat → String)
    (hstart : env.startResult = .ok resp)
    (hok : ∀ i, i < (chunkFile fileSize).length →
      env.uploadOutcome i (resp.parts.getD i default) = .ok (etagOf i))
    (hcomp : env.completeResult = .ok ())
    (hpoll : env.pollResult = .ok ())
    (hperm : (resp.parts.map PresignedPutPart.part_number).Perm
      (List.range' 1 (chunkFile fileSize).length)) :
    ∃ cp,
      (handleUpload true fileSize fileName env (fun _ => false)).completeCall =
        some (resp.video, cp) ∧
      cp.map CompletePart.PartNumber = List.range' 1 (chunkFile fileSize).length ∧
      (cp.map CompletePart.PartNumber).Pairwise (· < ·) ∧
      cp.Perm ((List.range' 0 (chunkFile fileSize).length).map
        (fun i => ⟨etagOf i, (resp.parts.getD i default).part_number⟩)) ∧
      cp.length = (chunkFile fileSize).length := by
  have hlen : resp.parts.length = (chunkFile fileSize).length := by
    have h := hperm.length_eq
    simpa using h
  have hmap : (((List.range' 0 (chunkFile fileSize).length).map
      (fun i => (⟨etagOf i, (resp.parts.getD i default).part_number⟩ : CompletePart))).map
        CompletePart.PartNumber) =
      resp.parts.map PresignedPutPart.part_number := by
    rw [List.map_map]
    have h2 : resp.parts.map PresignedPutPart.part_number =
        ((List.range' 0 resp.parts.length).map
          (fun i => resp.parts.getD i default)).map PresignedPutPart.part_number := by
      rw [map_getD_range_self]
    rw [h2, List.map_map, hlen]
    rfl
  have hsp : ((sortParts ((List.range' 0 (chunkFile fileSize).length).map
      (fun i => (⟨etagOf i, (resp.parts.getD i default).part_number⟩ : CompletePart)))).map
        CompletePart.PartNumber) = List.range' 1 (chunkFile fileSize).length := by
    apply sortParts_partNumbers
    rw [hmap]
    exact hperm
  refine ⟨_, ?_, hsp, ?_, ?_, ?_⟩
  · rw [handleUpload_success_run fileSize fileName env resp etagOf hstart hok hcomp hpoll]
  · rw [hsp]
    exact List.pairwise_lt_range' 1 (chunkFile fileSize).length
  · exact List.mergeSort_perm _ _
  · have h := (List.mergeSort_perm ((List.range' 0 (chunkFile fileSize).length).map
      (fun i => (⟨etagOf i, (resp.parts.getD i default).part_number⟩ : CompletePart)))
      (fun a b => decide (a.PartNumber ≤ b.PartNumber))).length_eq
    rw [sortParts, h]
    simp

/-- Start response used by the concrete no-cancellation runs: three
destinations whose part numbers arrive out of order. -/
def respDemo : StartUploadResponse :=
  ⟨[⟨2, "u2"⟩, ⟨3, "u3"⟩, ⟨1, "u1"⟩], "vid"⟩

/-- Environment used by the concrete no-cancellation runs: Start succeeds
with `respDemo`, every chunk upload succeeds, Complete and the poll
succeed. -/
def envDemo : SessionEnv :=
  ⟨.ok respDemo, fun i _ => .ok ("e" ++ toString i), .ok (), .ok (), 0, none⟩

theorem chunkFile_12MB_length : (chunkFile (12 * 1024 * 1024)).length = 3 := by
  unfold chunkFile
  rw [chunkFileGo_closed CHUNK_SIZE (12 * 1024 * 1024) (by decide)]
  simp only [List.length_map, List.length_range]
  decide

/-- Witness for `complete_call_ordered`: a 12 MiB file (3 chunks) with
destinations numbered `[2, 3, 1]` completes with part numbers `[1, 2, 3]`. -/
theorem complete_call_ordered_witness :
    ∃ cp,
      (handleUpload true (12 * 1024 * 1024) "demo.mp4" envDemo
        (fun _ => false)).completeCall = some ("vid", cp) ∧
      cp.map CompletePart.PartNumber =
        List.range' 1 (chunkFile (12 * 1024 * 1024)).length := by
  obtain ⟨cp, h1, h2, _, _, _⟩ := complete_call_ordered (12 * 1024 * 1024) "demo.mp4"
    envDemo respDemo (fun i => "e" ++ toString i) rfl (fun i _ => rfl) rfl rfl
    (by rw [chunkFile_12MB_length]; decide)
  exact ⟨cp, h1, h2⟩

/-- C9: the coordinator pairs chunks to destinations positionally — in a
successful never-cancelled run chunk `i` is dispatched to `parts[i]` and
recorded under `parts[i].part_number` — so whenever the Start response's
parts array (of matching length) is not ordered `1..totalParts`, some chunk
`i` goes to a destination whose part number differs from `i + 1`. -/
theorem positional_pairing (fileSize : Nat) (fileName : String)
    (env : SessionEnv) (resp : StartUploadResponse) (etagOf : Nat → String)
    (hstart : env.startResult = .ok resp)
    (hok : ∀ i, i < (chunkFile fileSize).length →
      env.uploadOutcome i (resp.parts.getD i default) = .ok (etagOf i))
    (hcomp : env.completeResult = .ok ())
    (hpoll : env.pollResult = .ok ())
    (hlen : resp.parts.length = (chunkFile fileSize).length) :
    (handleUpload true fileSize fileName env (fun _ => false)).dispatched =
      (List.range' 0 (chunkFile fileSize).length).map
        (fun i => (i, resp.parts.getD i default)) ∧
    (handleUpload true fileSize fileName env (fun _ => false)).completeCall =
      some (resp.video,
        sortParts ((List.range' 0 (chunkFile fileSize).length).map
          (fun i => ⟨etagOf i, (resp.parts.getD i default).part_number⟩))) ∧
    (resp.parts.map PresignedPutPart.part_number ≠
        List.range' 1 (chunkFile fileSize).length →
      ∃ i, i < (chunkFile fileSize).length ∧
        (resp.parts.getD i default).part_number ≠ i + 1) := by
  refine ⟨?_, ?_, ?_⟩
  · rw [handleUpload_success_run fileSize fileName env resp etagOf hstart hok hcomp hpoll]
  · rw [handleUpload_success_run fileSize fileName env resp etagOf hstart hok hcomp hpoll]
  · intro hne
    by_contra hno
    push_neg at hno
    apply hne
    have h2 : resp.parts.map PresignedPutPart.part_number =
        ((List.range' 0 resp.parts.length).map
          (fun i => resp.parts.getD i default)).map PresignedPutPart.part_number := by
      rw [map_getD_range_self]
    rw [h2, List.map_map, hlen]
    have h3 : ∀ i ∈ List.range' 0 (chunkFile fileSize).length,
        (PresignedPutPart.part_number ∘ fun i => resp.parts.getD i default) i =
          (fun i => 1 + i) i := by
      intro i hi
      have hilt : i < (chunkFile fileSize).length := by
        have := List.mem_range'_1.mp hi
        omega
      have := hno i hilt
      simp only [Function.comp_apply]
      omega
    rw [List.map_congr_left h3, List.map_add_range']

/-- Witness for `positional_pairing`: with destinations numbered
`[2, 3, 1]`, chunk 0 is dispatched to the destination with part number 2 —
which differs from 1. -/
theorem positional_pairing_witness :
    (handleUpload true (12 * 1024 * 1024) "demo.mp4" envDemo
      (fun _ => false)).dispatched =
      [(0, (⟨2, "u2"⟩ : PresignedPutPart)), (1, ⟨3, "u3"⟩), (2, ⟨1, "u1"⟩)] ∧
    (respDemo.parts.getD 0 default).part_number ≠ 0 + 1 := by
  obtain ⟨h1, _, h3⟩ := positional_pairing (12 * 1024 * 1024) "demo.mp4"
    envDemo respDemo (fun i => "e" ++ toString i) rfl (fun i _ => rfl) rfl rfl
    (by rw [chunkFile_12MB_length]; decide)
  constructor
  · rw [h1, chunkFile_12MB_length]
    decide
  · decide

end ChunkUpload

namespace ChunkUpload

/-- The chunk loop when the flag stays unset through chunk `a + f`'s check,
the first `f` chunks of the window succeed and chunk `a + f` fails: the
failing chunk is dispatched but not recorded, and its error is rethrown
out of the loop. -/
theorem uploadLoop_error_at (parts : List PresignedPutPart) (total : Nat)
    (uploadOutcome : Nat → PresignedPutPart → Except String String)
    (cancelAt : Nat → Bool) (etagOf : Nat → String) :
    ∀ m a k acc disp st f e, f < m →
      (∀ i, a ≤ i → i < a + f → uploadOutcome i (parts.getD i default) = .ok (etagOf i)) →
      uploadOutcome (a + f) (parts.getD (a + f) default) = .error e →
      (∀ j, k ≤ j → j ≤ k + f → cancelAt j = false) →
      uploadLoop parts total uploadOutcome cancelAt (List.range' a m) k acc disp st =
        ⟨k + f + 1,
         acc ++ (List.range' a f).map
           (fun i => ⟨etagOf i, (parts.getD i default).part_number⟩),
         disp ++ (List.range' a (f + 1)).map (fun i => (i, parts.getD i default)),
         some e, false, .uploadingChunk (a + f + 1) total⟩ := by
  intro m
  induction m with
  | zero =>
    intro a k acc disp st f e hf _ _ _
    omega
  | succ m ih =>
    intro a k acc disp st f e hf hok herr hcf
    have hr : List.range' a (m + 1) = a :: List.range' (a + 1) m := rfl
    rw [hr]
    simp only [uploadLoop]
    rw [hcf k (Nat.le_refl k) (by omega)]
    simp only [Bool.false_eq_true, if_false]
    match f, hf with
    | 0, _ =>
      have herr0 : uploadOutcome a (parts.getD a default) = .error e := by
        simpa using herr
      rw [herr0]
      simp
    | f' + 1, _ =>
      rw [hok a (Nat.le_refl a) (by omega)]
      dsimp only
      have herr1 : uploadOutcome (a + 1 + f') (parts.getD (a + 1 + f') default) = .error e := by
        have hsh : a + 1 + f' = a + (f' + 1) := by omega
        rw [hsh]
        exact herr
      rw [ih (a + 1) (k + 1) _ _ _ f' e (by omega)
        (fun i h1 h2 => hok i (by omega) (by omega)) herr1
        (fun j h1 h2 => hcf j (by omega) (by omega))]
      have hk1 : k + 1 + f' + 1 = k + (f' + 1) + 1 := by omega
      have ha1 : a + 1 + f' + 1 = a + (f' + 1) + 1 := by omega
      have hr2 : List.range' a (f' + 1) = a :: List.range' (a + 1) f' := rfl
      have hr3 : List.range' a (f' + 1 + 1) = a :: List.range' (a + 1) (f' + 1) := rfl
      rw [hk1, ha1, hr2, hr3]
      simp [List.append_assoc]

/-- C4: cancellation signalled while chunk `k` is in flight — the flag
reads `false` through chunk `k`'s dispatch check and `true` from the next
read on — lets chunk `k` finish and records its result; no chunk `k + 1`
is dispatched; Complete is never called; the run ends with status
`uploadCancelled` and no surfaced error.  `handleCancel` — the only setter
of the flag — also notified the backend's cancel operation, and
`cancelUpload` never surfaces a failure of that notification. -/
theorem cancellation_race (fileSize : Nat) (fileName : String)
    (env : SessionEnv) (resp : StartUploadResponse) (etagOf : Nat → String)
    (k : Nat)
    (hk : k < (chunkFile fileSize).length)
    (hstart : env.startResult = .ok resp)
    (hok : ∀ i, i ≤ k → env.uploadOutcome i (resp.parts.getD i default) = .ok (etagOf i)) :
    handleUpload true fileSize fileName env (cancelAfter (k + 2)) =
      ⟨some (fileName, (chunkFile fileSize).length),
       (List.range' 0 (k + 1)).map (fun i => (i, resp.parts.getD i default)),
       none, false, some resp.video, .uploadCancelled, ""⟩ ∧
    (resp.video ≠ "" → handleCancel (some resp.video) true =
      ⟨true, some .cancelling, some resp.video⟩) ∧
    (∀ r, (cancelUpload r).1 = none) := by
  refine ⟨?_, ?_, ?_⟩
  · unfold handleUpload
    rw [hstart]
    have hc0 : cancelAfter (k + 2) 0 = false := by simp [cancelAfter]
    simp only [Bool.true_eq_false, if_false, hc0, List.range_eq_range']
    by_cases hlast : k + 1 < (chunkFile fileSize).length
    · rw [uploadLoop_breaks resp.parts ((chunkFile fileSize).length) env.uploadOutcome
        (k + 2) etagOf ((chunkFile fileSize).length) 0 1 [] []
        (.receivedUrls resp.parts.length) (by omega) (by omega)
        (fun i h1 h2 => hok i (by omega))]
      have hc : cancelAfter (k + 2) (k + 2 + 1) = true := by simp [cancelAfter]
      dsimp only
      rw [hc]
      simp
    · have hn : (chunkFile fileSize).length = k + 1 := by omega
      rw [hn]
      rw [uploadLoop_all_ok resp.parts (k + 1) env.uploadOutcome
        (cancelAfter (k + 2)) etagOf (k + 1) 0 1 [] []
        (.receivedUrls resp.parts.length)
        (fun i h1 h2 => hok i (by omega))
        (fun j h1 h2 => by simp [cancelAfter]; omega)]
      have hc : cancelAfter (k + 2) (1 + (k + 1)) = true := by
        simp [cancelAfter]
        omega
      dsimp only
      rw [hc]
      simp
  · intro hv
    simp [handleCancel, uidFalsy, hv]
  · intro r
    unfold cancelUpload
    rcases h : cancelUploadAttempt r with _ | _ <;> simp [h]

/-- Witness for `cancellation_race`: a 12 MiB file (3 chunks), cancellation
signalled while chunk 1 is in flight: chunks 0 and 1 are dispatched, chunk
2 is not, Complete is never called, and the terminal status is
`uploadCancelled`. -/
theorem cancellation_race_witness :
    (handleUpload true (12 * 1024 * 1024) "demo.mp4" envDemo
        (cancelAfter 3)).completeCall = none ∧
    (handleUpload true (12 * 1024 * 1024) "demo.mp4" envDemo
        (cancelAfter 3)).status = .uploadCancelled ∧
    (handleUpload true (12 * 1024 * 1024) "demo.mp4" envDemo
        (cancelAfter 3)).dispatched =
      [(0, (⟨2, "u2"⟩ : PresignedPutPart)), (1, ⟨3, "u3"⟩)] := by
  obtain ⟨h1, _, _⟩ := cancellation_race (12 * 1024 * 1024) "demo.mp4" envDemo
    respDemo (fun i => "e" ++ toString i) 1
    (by rw [chunkFile_12MB_length]; decide) rfl (fun i _ => rfl)
  rw [h1]
  refine ⟨rfl, rfl, by decide⟩

end ChunkUpload

namespace ChunkUpload

/-- C7: once cancellation has been signalled, a later failure of the
already-in-flight operation is suppressed rather than reported: for a
chunk-upload failure observed after the signal, the surfaced error stays
empty, the terminal status is not `uploadFailed`, and Complete is not
called; and a status-request failure whose `catch` sees the flag set makes
the poll resolve as cancelled instead of rejecting. -/
theorem cancellation_suppresses_failure (fileSize : Nat) (fileName : String)
    (env : SessionEnv) (resp : StartUploadResponse) (etagOf : Nat → String)
    (k : Nat) (e : String)
    (hk : k < (chunkFile fileSize).length)
    (hstart : env.startResult = .ok resp)
    (hfirst : ∀ i, i < k → env.uploadOutcome i (resp.parts.getD i default) = .ok (etagOf i))
    (hfailk : env.uploadOutcome k (resp.parts.getD k default) = .error e) :
    (handleUpload true fileSize fileName env (cancelAfter (k + 2))).error = "" ∧
    (handleUpload true fileSize fileName env (cancelAfter (k + 2))).status ≠
      .uploadFailed ∧
    (handleUpload true fileSize fileName env (cancelAfter (k + 2))).completeCall =
      none ∧
    (∀ statusAt : Nat → Except String UploadStatus, ∀ cancelAt : Nat → Bool,
      ∀ iter k2 fuel : Nat, ∀ e2 : String,
      cancelAt k2 = false → statusAt iter = .error e2 → cancelAt (k2 + 1) = true →
      pollStatusGo statusAt cancelAt iter k2 (fuel + 1) = ⟨some .cancelled, 1, []⟩) := by
  have hrun : handleUpload true fileSize fileName env (cancelAfter (k + 2)) =
      ⟨some (fileName, (chunkFile fileSize).length),
       (List.range' 0 (k + 1)).map (fun i => (i, resp.parts.getD i default)),
       none, false, some resp.video,
       .uploadingChunk (k + 1) (chunkFile fileSize).length, ""⟩ := by
    unfold handleUpload
    rw [hstart]
    have hc0 : cancelAfter (k + 2) 0 = false := by simp [cancelAfter]
    simp only [Bool.true_eq_false, if_false, hc0, List.range_eq_range']
    rw [uploadLoop_error_at resp.parts ((chunkFile fileSize).length) env.uploadOutcome
      (cancelAfter (k + 2)) etagOf ((chunkFile fileSize).length) 0 1 [] []
      (.receivedUrls resp.parts.length) k e hk
      (fun i h1 h2 => hfirst i (by omega)) (by simpa using hfailk)
      (fun j h1 h2 => by simp [cancelAfter]; omega)]
    have hc : cancelAfter (k + 2) (1 + k + 1) = true := by
      simp [cancelAfter]
      omega
    dsimp only
    rw [hc]
    simp
  refine ⟨?_, ?_, ?_, ?_⟩
  · rw [hrun]
  · rw [hrun]
    simp
  · rw [hrun]
  · intro statusAt cancelAt iter k2 fuel e2 h1 h2 h3
    simp only [pollStatusGo, h1, h2, h3]
    simp

/-- Environment for the concrete suppressed-failure run: chunk 1's upload
fails after its retries; all other chunks succeed. -/
def envC7 : SessionEnv :=
  ⟨.ok respDemo,
   fun i _ => if i = 1 then .error "boom" else .ok ("e" ++ toString i),
   .ok (), .ok (), 0, none⟩

/-- Witness for `cancellation_suppresses_failure`: 12 MiB file, cancellation
signalled while chunk 1 is in flight, chunk 1 then fails — the error is
swallowed and the run does not end in `uploadFailed`. -/
theorem cancellation_suppresses_failure_witness :
    (handleUpload true (12 * 1024 * 1024) "demo.mp4" envC7
      (cancelAfter 3)).error = "" ∧
    (handleUpload true (12 * 1024 * 1024) "demo.mp4" envC7
      (cancelAfter 3)).status ≠ .uploadFailed := by
  obtain ⟨h1, h2, _, _⟩ := cancellation_suppresses_failure (12 * 1024 * 1024)
    "demo.mp4" envC7 respDemo (fun i => "e" ++ toString i) 1 "boom"
    (by rw [chunkFile_12MB_length]; decide) rfl
    (fun i hi => by
      have h0 : i = 0 := by omega
      subst h0
      rfl)
    rfl
  exact ⟨h1, h2⟩

end ChunkUpload

namespace ChunkUpload

/-- C5 (code evidence): the chunker yields zero chunks for an empty source,
but `handleUpload` does not treat the selected empty file as an input
error: it calls the backend Start operation with `total_parts = 0`,
proceeds to call Complete with an empty part list, and finishes without
surfacing any error. -/
theorem empty_source_calls_start :
    chunkFile 0 = [] ∧
    handleUpload true 0 "empty.bin"
      ⟨.ok ⟨[], "vid0"⟩, fun _ _ => .error "unused", .ok (), .ok (), 0, none⟩
      (fun _ => false) =
      ⟨some ("empty.bin", 0), [], some ("vid0", []), true, some "vid0",
       .uploadCompleted, ""⟩ := by
  have h0 : chunkFile 0 = [] := chunkFileGo_of_ge (Nat.le_refl 0)
  refine ⟨h0, ?_⟩
  unfold handleUpload
  rw [h0]
  simp [uploadLoop, sortParts]

/-- Every run's `videoUid`: `none` unless the Start call succeeded, in
which case it is the Start response's video id (it is reset to `null` at
the beginning of the run and assigned only at line 251). -/
theorem handleUpload_videoUid (fileSelected : Bool) (fileSize : Nat)
    (fileName : String) (env : SessionEnv) (cancelAt : Nat → Bool) :
    (handleUpload fileSelected fileSize fileName env cancelAt).videoUid =
      match fileSelected, env.startResult with
      | false, _ => none
      | true, .error _ => none
      | true, .ok resp => some resp.video := by
  unfold handleUpload
  cases fileSelected with
  | false => rfl
  | true =>
    cases h : env.startResult with
    | error e =>
      simp only [h]
      repeat' split
      all_goals first | rfl | contradiction
    | ok resp =>
      simp only [h]
      repeat' split
      all_goals first | rfl | contradiction

/-- C10: `handleCancel` is a no-op — it neither sets the cancellation flag
nor notifies the backend (nor touches the status) — whenever no `videoUid`
has been assigned or no upload is in progress; and a run assigns a
`videoUid` only from a received Start response, so a session can never be
cancelled before the Start response arrives. -/
theorem handleCancel_noop_spec :
    (∀ u : Bool, handleCancel none u = ⟨false, none, none⟩) ∧
    (∀ v : String, handleCancel (some v) false = ⟨false, none, none⟩) ∧
    (∀ fileSelected : Bool, ∀ fileSize : Nat, ∀ fileName : String,
      ∀ env : SessionEnv, ∀ cancelAt : Nat → Bool, ∀ e : String,
      env.startResult = .error e →
      (handleUpload fileSelected fileSize fileName env cancelAt).videoUid = none) ∧
    (∀ fileSelected : Bool, ∀ fileSize : Nat, ∀ fileName : String,
      ∀ env : SessionEnv, ∀ cancelAt : Nat → Bool, ∀ v : String,
      (handleUpload fileSelected fileSize fileName env cancelAt).videoUid = some v →
      ∃ resp, env.startResult = .ok resp ∧ resp.video = v) := by
  refine ⟨fun u => rfl, fun v => by simp [handleCancel], ?_, ?_⟩
  · intro fileSelected fileSize fileName env cancelAt e he
    rw [handleUpload_videoUid]
    rcases fileSelected with _ | _
    · rfl
    · rw [he]
  · intro fileSelected fileSize fileName env cancelAt v hv
    rw [handleUpload_videoUid] at hv
    rcases fileSelected with _ | _
    · cases hv
    · cases h : env.startResult with
      | error e =>
        rw [h] at hv
        cases hv
      | ok resp =>
        rw [h] at hv
        refine ⟨resp, rfl, ?_⟩
        simpa using hv

/-- Witness for `handleCancel_noop_spec`: cancelling while uploading but
before any `videoUid` exists does nothing, and a run whose Start call
failed has no `videoUid`. -/
theorem handleCancel_noop_spec_witness :
    handleCancel none true = ⟨false, none, none⟩ ∧
    (handleUpload true 5 "f.bin"
      ⟨.error "connection refused", fun _ _ => .error "unused", .ok (), .ok (), 0, none⟩
      (fun _ => false)).videoUid = none :=
  ⟨handleCancel_noop_spec.1 true,
   handleCancel_noop_spec.2.2.1 true 5 "f.bin"
     ⟨.error "connection refused", fun _ _ => .error "unused", .ok (), .ok (), 0, none⟩
     (fun _ => false) "connection refused" rfl⟩

end ChunkUpload

namespace ChunkUpload

/-- A resolved `failed` outcome of the poll loop can only come from a
status request that failed while both flag reads of its iteration were
unset. -/
theorem pollStatusGo_failed_source (statusAt : Nat → Except String UploadStatus)
    (cancelAt : Nat → Bool) (e : String) :
    ∀ fuel iter k,
      (pollStatusGo statusAt cancelAt iter k fuel).outcome = some (.failed e) →
      ∃ j, statusAt (iter + j) = .error e ∧
        cancelAt (k + 2 * j) = false ∧ cancelAt (k + 2 * j + 1) = false := by
  intro fuel
  induction fuel with
  | zero =>
    intro iter k h
    simp [pollStatusGo] at h
  | succ fuel ih =>
    intro iter k h
    cases hcv : cancelAt k with
    | true =>
      simp only [pollStatusGo, hcv] at h
      simp at h
    | false =>
      cases hst : statusAt iter with
      | error e2 =>
        cases hcv2 : cancelAt (k + 1) with
        | true =>
          simp only [pollStatusGo, hcv, hst, hcv2] at h
          simp at h
        | false =>
          simp only [pollStatusGo, hcv, hst, hcv2] at h
          simp only [Bool.false_eq_true, if_false, Option.some.injEq] at h
          have he : e2 = e := by
            simpa using h
          refine ⟨0, ?_, ?_, ?_⟩
          · rw [Nat.add_zero, hst, he]
          · simpa using hcv
          · simpa using hcv2
      | ok st =>
        by_cases hdone : st.status = "completed"
        · simp only [pollStatusGo, hcv, hst, hdone] at h
          simp at h
        · cases hcv2 : cancelAt (k + 1) with
          | true =>
            simp only [pollStatusGo, hcv, hst, hdone, hcv2] at h
            simp at h
          | false =>
            simp only [pollStatusGo, hcv, hst, hdone, hcv2] at h
            simp only [Bool.false_eq_true, if_false] at h
            obtain ⟨j, hj1, hj2, hj3⟩ := ih (iter + 1) (k + 2) h
            refine ⟨j + 1, ?_, ?_, ?_⟩
            · have hsh : iter + (j + 1) = iter + 1 + j := by omega
              rw [hsh]
              exact hj1
            · have hsh : k + 2 * (j + 1) = k + 2 + 2 * j := by omega
              rw [hsh]
              exact hj2
            · have hsh : k + 2 * (j + 1) + 1 = k + 2 + 2 * j + 1 := by omega
              rw [hsh]
              exact hj3

/-- A resolved `completed` outcome of the poll loop can only come from a
status request that returned `"completed"`. -/
theorem pollStatusGo_completed_source (statusAt : Nat → Except String UploadStatus)
    (cancelAt : Nat → Bool) :
    ∀ fuel iter k,
      (pollStatusGo statusAt cancelAt iter k fuel).outcome = some .completed →
      ∃ j st, statusAt (iter + j) = .ok st ∧ st.status = "completed" := by
  intro fuel
  induction fuel with
  | zero =>
    intro iter k h
    simp [pollStatusGo] at h
  | succ fuel ih =>
    intro iter k h
    cases hcv : cancelAt k with
    | true =>
      simp only [pollStatusGo, hcv] at h
      simp at h
    | false =>
      cases hst : statusAt iter with
      | error e2 =>
        cases hcv2 : cancelAt (k + 1) with
        | true =>
          simp only [pollStatusGo, hcv, hst, hcv2] at h
          simp at h
        | false =>
          simp only [pollStatusGo, hcv, hst, hcv2] at h
          simp at h
      | ok st =>
        by_cases hdone : st.status = "completed"
        · exact ⟨0, st, by rw [Nat.add_zero]; exact hst, hdone⟩
        · cases hcv2 : cancelAt (k + 1) with
          | true =>
            simp only [pollStatusGo, hcv, hst, hdone, hcv2] at h
            simp at h
          | false =>
            simp only [pollStatusGo, hcv, hst, hdone, hcv2] at h
            simp only [Bool.false_eq_true, if_false] at h
            obtain ⟨j, st2, hj1, hj2⟩ := ih (iter + 1) (k + 2) h
            refine ⟨j + 1, st2, ?_, hj2⟩
            have hsh : iter + (j + 1) = iter + 1 + j := by omega
            rw [hsh]
            exact hj1

/-- The poll loop with cancellation never signalled: after `N` non-terminal
responses (each followed by a 5000 ms wait), the `N`-th request decides the
outcome — `completed` on status `"completed"`, a rejection carrying the
request's own error on a failure. -/
theorem pollStatusGo_no_cancel_run (statusAt : Nat → Except String UploadStatus)
    (cancelAt : Nat → Bool) (hnc : ∀ j, cancelAt j = false) :
    ∀ N fuel iter k, N < fuel →
      (∀ m, m < N → ∃ st, statusAt (iter + m) = .ok st ∧ st.status ≠ "completed") →
      (∀ st, statusAt (iter + N) = .ok st → st.status = "completed" →
        pollStatusGo statusAt cancelAt iter k fuel =
          ⟨some .completed, N + 1, List.replicate N 5000⟩) ∧
      (∀ e, statusAt (iter + N) = .error e →
        pollStatusGo statusAt cancelAt iter k fuel =
          ⟨some (.failed e), N + 1, List.replicate N 5000⟩) := by
  intro N
  induction N with
  | zero =>
    intro fuel iter k hfuel _
    obtain ⟨fuel', rfl⟩ : ∃ f, fuel = f + 1 := ⟨fuel - 1, by omega⟩
    constructor
    · intro st hst hdone
      rw [Nat.add_zero] at hst
      simp only [pollStatusGo, hnc k, hst, hdone]
      simp
    · intro e hst
      rw [Nat.add_zero] at hst
      simp only [pollStatusGo, hnc k, hst, hnc (k + 1)]
      simp
  | succ N ih =>
    intro fuel iter k hfuel hpred
    obtain ⟨fuel', rfl⟩ : ∃ f, fuel = f + 1 := ⟨fuel - 1, by omega⟩
    obtain ⟨st0, hst0, hne0⟩ := hpred 0 (by omega)
    rw [Nat.add_zero] at hst0
    have hgo : pollStatusGo statusAt cancelAt iter k (fuel' + 1) =
        ⟨(pollStatusGo statusAt cancelAt (iter + 1) (k + 2) fuel').outcome,
         (pollStatusGo statusAt cancelAt (iter + 1) (k + 2) fuel').requests + 1,
         5000 :: (pollStatusGo statusAt cancelAt (iter + 1) (k + 2) fuel').delays⟩ := by
      simp only [pollStatusGo, hnc k, hst0, if_neg hne0, hnc (k + 1)]
      simp
    have hpred2 : ∀ m, m < N → ∃ st, statusAt (iter + 1 + m) = .ok st ∧
        st.status ≠ "completed" := by
      intro m hm
      have h := hpred (m + 1) (by omega)
      have hsh : iter + (m + 1) = iter + 1 + m := by omega
      rw [hsh] at h
      exact h
    have hih := ih fuel' (iter + 1) (k + 2) (by omega) hpred2
    constructor
    · intro st hst hdone
      have hsh : iter + (N + 1) = iter + 1 + N := by omega
      rw [hsh] at hst
      rw [hgo, hih.1 st hst hdone]
      simp [List.replicate_succ]
    · intro e hst
      have hsh : iter + (N + 1) = iter + 1 + N := by omega
      rw [hsh] at hst
      rw [hgo, hih.2 e hst]
      simp [List.replicate_succ]

end ChunkUpload

namespace ChunkUpload

/-- Every wait the poll loop performs is the fixed 5000 ms inter-poll
delay. -/
theorem pollStatusGo_delays_fixed (statusAt : Nat → Except String UploadStatus)
    (cancelAt : Nat → Bool) :
    ∀ fuel iter k d, d ∈ (pollStatusGo statusAt cancelAt iter k fuel).delays →
      d = 5000 := by
  intro fuel
  induction fuel with
  | zero =>
    intro iter k d h
    simp [pollStatusGo] at h
  | succ fuel ih =>
    intro iter k d h
    cases hcv : cancelAt k with
    | true =>
      simp only [pollStatusGo, hcv] at h
      simp at h
    | false =>
      cases hst : statusAt iter with
      | error e2 =>
        cases hcv2 : cancelAt (k + 1) with
        | true =>
          simp only [pollStatusGo, hcv, hst, hcv2] at h
          simp at h
        | false =>
          simp only [pollStatusGo, hcv, hst, hcv2] at h
          simp at h
      | ok st =>
        by_cases hdone : st.status = "completed"
        · simp only [pollStatusGo, hcv, hst, hdone] at h
          simp at h
        · cases hcv2 : cancelAt (k + 1) with
          | true =>
            simp only [pollStatusGo, hcv, hst, hdone, hcv2] at h
            simp at h
          | false =>
            simp only [pollStatusGo, hcv, hst, hdone, hcv2] at h
            simp only [Bool.false_eq_true, if_false] at h
            rcases List.mem_cons.mp h with h1 | h1
            · exact h1
            · exact ih _ _ _ h1

/-- C8: the poller's first wait is the fixed 3000 ms initial delay and
every later wait is the fixed 5000 ms inter-poll delay; it checks
cancellation before each request and resolves as cancelled (issuing no
request) when the flag is set; it rejects only when a status request
failed while the flag reads of its iteration were unset; it resolves
successfully only when a request returned status `"completed"`; and, with
cancellation never signalled, after `N` non-terminal responses the `N`-th
request decides: `"completed"` resolves the poll after `N + 1` requests
with the 3000 ms delay followed by `N` inter-poll delays, and a request
failure rejects with that error after the same requests and delays. -/
theorem pollStatus_spec (statusAt : Nat → Except String UploadStatus)
    (cancelAt : Nat → Bool) :
    (∀ fuel, (pollStatus statusAt cancelAt fuel).delays.head? = some 3000 ∧
      ∀ d ∈ (pollStatus statusAt cancelAt fuel).delays.tail, d = 5000) ∧
    (∀ iter k fuel, cancelAt k = true →
      pollStatusGo statusAt cancelAt iter k (fuel + 1) =
        ⟨some .cancelled, 0, []⟩) ∧
    (∀ fuel e, (pollStatus statusAt cancelAt fuel).outcome = some (.failed e) →
      ∃ n, statusAt n = .error e ∧
        cancelAt (2 * n) = false ∧ cancelAt (2 * n + 1) = false) ∧
    (∀ fuel, (pollStatus statusAt cancelAt fuel).outcome = some .completed →
      ∃ n st, statusAt n = .ok st ∧ st.status = "completed") ∧
    ((∀ j, cancelAt j = false) → ∀ N fuel, N < fuel →
      (∀ m, m < N → ∃ st, statusAt m = .ok st ∧ st.status ≠ "completed") →
      (∀ st, statusAt N = .ok st → st.status = "completed" →
        pollStatus statusAt cancelAt fuel =
          ⟨some .completed, N + 1, 3000 :: List.replicate N 5000⟩) ∧
      (∀ e, statusAt N = .error e →
        pollStatus statusAt cancelAt fuel =
          ⟨some (.failed e), N + 1, 3000 :: List.replicate N 5000⟩)) := by
  refine ⟨?_, ?_, ?_, ?_, ?_⟩
  · intro fuel
    constructor
    · rfl
    · intro d hd
      exact pollStatusGo_delays_fixed statusAt cancelAt fuel 0 0 d hd
  · intro iter k fuel hc
    simp only [pollStatusGo, hc]
    simp
  · intro fuel e h
    have h2 : (pollStatusGo statusAt cancelAt 0 0 fuel).outcome = some (.failed e) := h
    obtain ⟨j, hj1, hj2, hj3⟩ := pollStatusGo_failed_source statusAt cancelAt e fuel 0 0 h2
    exact ⟨j, by simpa using hj1, by simpa using hj2, by simpa using hj3⟩
  · intro fuel h
    have h2 : (pollStatusGo statusAt cancelAt 0 0 fuel).outcome = some .completed := h
    obtain ⟨j, st, hj1, hj2⟩ := pollStatusGo_completed_source statusAt cancelAt fuel 0 0 h2
    exact ⟨j, st, by simpa using hj1, hj2⟩
  · intro hnc N fuel hfuel hpred
    have hrun := pollStatusGo_no_cancel_run statusAt cancelAt hnc N fuel 0 0 hfuel
      (by intro m hm; simpa using hpred m hm)
    constructor
    · intro st hst hdone
      have h := hrun.1 st (by simpa using hst) hdone
      unfold pollStatus
      rw [h]
    · intro e hst
      have h := hrun.2 e (by simpa using hst)
      unfold pollStatus
      rw [h]

/-- Status oracle for the concrete poll run: one `"processing"` response,
then `"completed"`. -/
def statusAtDemo : Nat → Except String UploadStatus :=
  fun n => if n = 0 then .ok ⟨"processing", "vid"⟩ else .ok ⟨"completed", "vid"⟩

/-- Witness for `pollStatus_spec`: with no cancellation, one
`"processing"` response then `"completed"`, the poll resolves as completed
after 2 requests, one initial 3000 ms delay and one 5000 ms inter-poll
delay. -/
theorem pollStatus_spec_witness :
    pollStatus statusAtDemo (fun _ => false) 5 =
      ⟨some .completed, 2, [3000, 5000]⟩ := by
  have h := ((pollStatus_spec statusAtDemo (fun _ => false)).2.2.2.2
    (fun j => rfl) 1 5 (by omega)
    (fun m hm => ⟨⟨"processing", "vid"⟩, by
      have hm0 : m = 0 := by omega
      subst hm0
      rfl, by decide⟩)).1 ⟨"completed", "vid"⟩ rfl rfl
  simpa using h

end ChunkUpload
